import Mathlib

/-!
Verification of the Inventory-Manager web application against its
natural-language specification.

The JavaScript modules under src/js are shallowly embedded:
pure functions become Lean functions, the localStorage-backed quote
ledger becomes explicit state passing on a Lean list, JS numbers are
modelled by an explicit sum type whose finite values are rationals
(IEEE negative zero is not distinguished from zero), and JS strings
by Lean strings.
-/

namespace InventoryManager

/-- Rating record carried by each product (rating.rate, rating.count). -/
structure Rating where
  rate : ℚ
  count : ℤ
  deriving DecidableEq

/-- Embedding of the Product class fields set by the constructor
in src/js/product.js. -/
structure Product where
  id : ℤ
  title : String
  price : ℚ
  description : String
  category : String
  image : String
  rating : Rating
  deriving DecidableEq

/-- Helper for JS String.prototype.includes on char lists: the needle
occurs contiguously in the haystack. -/
def charsInclude (needle : List Char) : List Char → Bool
  | [] => needle.isEmpty
  | c :: t => needle.isPrefixOf (c :: t) || charsInclude needle t

/-- JS s.includes(sub): contiguous substring test. -/
def jsIncludes (s sub : String) : Bool :=
  charsInclude sub.toList s.toList

/-- Product.matchesSearch from src/js/product.js: pass-through on an
empty or blank query, otherwise case-insensitive substring match of the
trimmed query against title, description or category. -/
def Product.matchesSearch (p : Product) (query : String) : Bool :=
  if query == "" || query.trim == "" then true
  else
    let searchTerm := query.toLower.trim
    jsIncludes p.title.toLower searchTerm ||
      jsIncludes p.description.toLower searchTerm ||
      jsIncludes p.category.toLower searchTerm

/-- Product.isInCategory from src/js/product.js: pass-through on an
empty category or "all", otherwise strict string equality. -/
def Product.isInCategory (p : Product) (category : String) : Bool :=
  if category == "" || category == "all" then true
  else p.category == category

/-- filterBySearch from src/js/filterService.js. -/
def filterBySearch (products : List Product) (query : String) : List Product :=
  if query == "" || query.trim == "" then products
  else
    let searchTerm := query.toLower.trim
    products.filter fun product =>
      jsIncludes product.title.toLower searchTerm ||
        jsIncludes product.description.toLower searchTerm ||
        jsIncludes product.category.toLower searchTerm

/-- filterByCategory from src/js/filterService.js. -/
def filterByCategory (products : List Product) (category : String) : List Product :=
  if category == "" || category == "all" then products
  else products.filter fun product => product.category == category

/-- The filters object accepted by applyFilters; a missing JS field is
modelled by the empty string (both are falsy pass-throughs). -/
structure FilterCriteria where
  search : String
  category : String

/-- applyFilters from src/js/filterService.js: copies the input, applies
the category filter when filters.category is truthy, then the search
filter when filters.search is truthy. -/
def applyFilters (products : List Product) (filters : FilterCriteria) : List Product :=
  let filtered := products
  let filtered := if filters.category == "" then filtered
    else filterByCategory filtered filters.category
  let filtered := if filters.search == "" then filtered
    else filterBySearch filtered filters.search
  filtered

/-! ## JS numbers and the currency-logic module -/

/-- A JS number as seen by the currency-logic module: undefined or
missing input, NaN, the two infinities, or a finite value modelled by a
rational (negative zero is not distinguished from zero). -/
inductive JsNum where
  | undef
  | nan
  | inf
  | negInf
  | num (q : ℚ)
  deriving DecidableEq

/-- JS truthiness of a number-like value: undefined, NaN and 0 are falsy. -/
def jsFalsy : JsNum → Bool
  | .undef => true
  | .nan => true
  | .inf => false
  | .negInf => false
  | .num q => q == 0

/-- typeof v === 'number' for our JsNum values. -/
def jsTypeofNumber : JsNum → Bool
  | .undef => false
  | _ => true

/-- JS multiplication of a number-like value by a finite rate. -/
def mulRate : JsNum → ℚ → JsNum
  | .num q, r => .num (q * r)
  | .inf, r => if 0 < r then .inf else if r < 0 then .negInf else .nan
  | .negInf, r => if 0 < r then .negInf else if r < 0 then .inf else .nan
  | .nan, _ => .nan
  | .undef, _ => .nan

/-- An exchange-rate table: finite map from currency codes to rates. -/
def RateTable : Type := List (String × ℚ)

/-- exchangeRates[currency]: property lookup, undefined when absent. -/
def lookupRate (rates : RateTable) (currency : String) : Option ℚ :=
  (List.find? (fun e => e.1 == currency) rates).map (fun e => e.2)

/-- convertPrice from the currency-logic module: returns 0 on a falsy or
non-number amount, the amount itself for USD, the amount itself when the
looked-up rate is falsy (absent, or 0), and amount * rate otherwise. -/
def convertPrice (usdPrice : JsNum) (targetCurrency : String)
    (exchangeRates : RateTable) : JsNum :=
  if jsFalsy usdPrice || !jsTypeofNumber usdPrice then .num 0
  else if targetCurrency == "USD" then usdPrice
  else
    match lookupRate exchangeRates targetCurrency with
    | none => usdPrice
    | some rate => if rate == 0 then usdPrice else mulRate usdPrice rate

/-! ## Price formatting -/

/-- isNaN(v) for our JsNum values. -/
def jsIsNaN : JsNum → Bool
  | .nan => true
  | _ => false

/-- The CURRENCY_SYMBOLS table of the currency-logic module. -/
def CURRENCY_SYMBOLS : List (String × String) :=
  [("USD", "$"), ("EUR", "€"), ("GBP", "£"), ("JPY", "¥"), ("MXN", "$")]

/-- CURRENCY_SYMBOLS[currency] || '$' (also the body of
getCurrencySymbol in the source). -/
def getCurrencySymbol (currency : String) : String :=
  ((List.find? (fun e => e.1 == currency) CURRENCY_SYMBOLS).map
    (fun e => e.2)).getD "$"

/-- JS Math.round: round half toward positive infinity. -/
def mathRound (q : ℚ) : ℤ :=
  ⌊q + 1 / 2⌋

/-- Rounding used by Intl.NumberFormat (toLocaleString): round half away
from zero. -/
def halfExpand (q : ℚ) : ℤ :=
  if 0 ≤ q then ⌊q + 1 / 2⌋ else -⌊-q + 1 / 2⌋

/-- Split a reversed digit list into en-US grouping chunks of three. -/
def chunk3 : List Char → List (List Char)
  | [] => []
  | [a] => [[a]]
  | [a, b] => [[a, b]]
  | a :: b :: c :: rest => [a, b, c] :: chunk3 rest

/-- Insert en-US thousands separators into a digit string. -/
def groupThousands (s : String) : String :=
  String.mk (List.intercalate [','] (chunk3 s.toList.reverse)).reverse

/-- n.toLocaleString('en-US') for an integer n: sign, then digits with
thousands separators. -/
def jsToLocaleInt (n : ℤ) : String :=
  (if n < 0 then "-" else "") ++ groupThousands (toString n.natAbs)

/-- Left-pad a two-digit fraction part with a zero. -/
def pad2 (m : ℕ) : String :=
  if m < 10 then "0" ++ toString m else toString m

/-- v.toLocaleString('en-US', \x7bminimumFractionDigits: 2,
maximumFractionDigits: 2\x7d): round to two fraction digits half away
from zero, keep the sign of the original value, group the integer part. -/
def formatFixed2 (q : ℚ) : String :=
  let n := halfExpand (q * 100)
  let m := n.natAbs
  (if q < 0 then "-" else "") ++
    groupThousands (toString (m / 100)) ++ "." ++ pad2 (m % 100)

/-- formatPrice from the currency-logic module: symbol-prefixed "0.00"
for non-number or NaN input, integer rendering for JPY, two fraction
digits otherwise; Infinity renders as the infinity sign in both branches. -/
def formatPrice (price : JsNum) (currency : String) : String :=
  if !jsTypeofNumber price || jsIsNaN price then
    getCurrencySymbol currency ++ "0.00"
  else
    let symbol := getCurrencySymbol currency
    match price with
    | .num q =>
      if currency == "JPY" then symbol ++ jsToLocaleInt (mathRound q)
      else symbol ++ formatFixed2 q
    | .inf => symbol ++ "∞"
    | .negInf => symbol ++ "-∞"
    | .nan => symbol ++ "0.00"
    | .undef => symbol ++ "0.00"

/-! ## The persisted quote ledger

localStorage is modelled by explicit state passing: each operation takes
the currently persisted quote list and returns the new persisted list,
which is also the value the JS function returns. -/

/-- addToQuote: appends the product unless an entry with the same id is
already present (duplicate adds are no-ops). -/
def addToQuote (quoteList : List Product) (product : Product) : List Product :=
  if quoteList.any (fun item => item.id == product.id) then quoteList
  else quoteList ++ [product]

/-- removeFromQuote: keeps the entries whose id differs. -/
def removeFromQuote (quoteList : List Product) (productId : ℤ) : List Product :=
  quoteList.filter fun item => !(item.id == productId)

/-- clearQuote: persists the empty list. -/
def clearQuote : List Product := []

/-- The ledger invariant: entries are unique by id. -/
def idsNodup (quoteList : List Product) : Prop :=
  (quoteList.map fun item => item.id).Nodup

/-- Concrete sample products used in witnesses. -/
def sampleProduct1 : Product := ⟨1, "a", 2, "d", "c", "i", ⟨0, 0⟩⟩

/-- A second sample product with a different id. -/
def sampleProduct2 : Product := ⟨2, "b", 3, "d", "c", "i", ⟨0, 0⟩⟩

instance (l : List Product) : Decidable (idsNodup l) := by
  unfold idsNodup; infer_instance

/-! ## Sorting

JS Array.prototype.sort is a stable sort (required since ES2019); it is
modelled by the stable List.mergeSort, with an element placed first when
the source comparator is non-positive.  localeCompare on titles is
abstracted by the default string order, which no claim depends on. -/

/-- sortProducts from src/js/filterService.js: copies the input and
sorts it by the selected criterion, returning the copy unchanged for an
unknown criterion. -/
def sortProducts (products : List Product) (sortBy : String) : List Product :=
  let sorted := products
  if sortBy == "price-asc" then
    sorted.mergeSort fun a b => decide (a.price ≤ b.price)
  else if sortBy == "price-desc" then
    sorted.mergeSort fun a b => decide (b.price ≤ a.price)
  else if sortBy == "name-asc" then
    sorted.mergeSort fun a b => decide (a.title ≤ b.title)
  else if sortBy == "name-desc" then
    sorted.mergeSort fun a b => decide (b.title ≤ a.title)
  else if sortBy == "rating" then
    sorted.mergeSort fun a b => decide (b.rating.rate ≤ a.rating.rate)
  else sorted

/-! ## JSON export

A model of the JSON values this app serializes and of
JSON.stringify(v, null, 2).  JSON numbers are carried as rationals;
a rational with a terminating decimal expansion prints as that exact
expansion, which is what applies to every value this app serializes. -/

mutual
inductive Json where
  | str (s : String)
  | num (q : ℚ)
  | arr (elems : JsonArr)
  | obj (members : JsonObj)
inductive JsonArr where
  | nil
  | cons (head : Json) (tail : JsonArr)
inductive JsonObj where
  | nil
  | cons (key : String) (val : Json) (tail : JsonObj)
end

/-- Build a JsonArr from a Lean list of values. -/
def JsonArr.ofList : List Json → JsonArr
  | [] => .nil
  | x :: xs => .cons x (JsonArr.ofList xs)

/-- Lower-case hex digit. -/
def hexDigit (n : ℕ) : String :=
  String.singleton (Char.ofNat (if n < 10 then 48 + n else 87 + n))

/-- JSON string escaping of one character, as JSON.stringify performs it. -/
def escapeJsonChar (c : Char) : String :=
  if c == '"' then "\\\""
  else if c == '\\' then "\\\\"
  else if c == '\n' then "\\n"
  else if c == '\r' then "\\r"
  else if c == '\t' then "\\t"
  else if c.toNat == 8 then "\\b"
  else if c.toNat == 12 then "\\f"
  else if c.toNat < 32 then "\\u00" ++ hexDigit (c.toNat / 16) ++ hexDigit (c.toNat % 16)
  else String.singleton c

/-- A JSON string literal with quotes and escapes. -/
def jsonQuote (s : String) : String :=
  "\"" ++ String.join (s.toList.map escapeJsonChar) ++ "\""

/-- Left-pad a fraction part to k digits. -/
def padZeros (k m : ℕ) : String :=
  let s := toString m
  String.mk (List.replicate (k - s.length) '0') ++ s

/-- Decimal rendering of a JSON number: integers print without a
separator; a rational with terminating decimal expansion prints with the
minimal number of fraction digits.  Other rationals (which do not occur
as serialized JS values in this app) print as fractions. -/
def jsonNum (q : ℚ) : String :=
  if q.den == 1 then toString q.num
  else
    match (List.range (q.den + 1)).find? (fun k => (10 ^ k) % q.den == 0) with
    | some k =>
      let scaled : ℤ := q.num * (10 : ℤ) ^ k / (q.den : ℤ)
      (if q.num < 0 then "-" else "") ++
        toString (scaled.natAbs / 10 ^ k) ++ "." ++ padZeros k (scaled.natAbs % 10 ^ k)
    | none => toString q.num ++ "/" ++ toString q.den

/-- The indentation produced by JSON.stringify(v, null, 2) at a nesting
depth: two spaces per level. -/
def indentOf (gap : ℕ) : String :=
  String.mk (List.replicate (2 * gap) ' ')

mutual
/-- JSON.stringify(v, null, 2) at a given nesting depth. -/
def renderJson (gap : ℕ) : Json → String
  | .str s => jsonQuote s
  | .num q => jsonNum q
  | .arr .nil => "[]"
  | .arr (.cons x xs) =>
    "[\n" ++ renderArr (gap + 1) (.cons x xs) ++ "\n" ++ indentOf gap ++ "]"
  | .obj .nil => "\x7b\x7d"
  | .obj (.cons k v fs) =>
    "\x7b\n" ++ renderObj (gap + 1) (.cons k v fs) ++ "\n" ++ indentOf gap ++ "\x7d"

/-- Array elements, one per line, comma separated. -/
def renderArr (gap : ℕ) : JsonArr → String
  | .nil => ""
  | .cons x .nil => indentOf gap ++ renderJson gap x
  | .cons x (.cons y ys) =>
    indentOf gap ++ renderJson gap x ++ ",\n" ++ renderArr gap (.cons y ys)

/-- Object members, one per line, comma separated, colon-space after keys. -/
def renderObj (gap : ℕ) : JsonObj → String
  | .nil => ""
  | .cons k v .nil => indentOf gap ++ jsonQuote k ++ ": " ++ renderJson gap v
  | .cons k v (.cons k2 v2 gs) =>
    indentOf gap ++ jsonQuote k ++ ": " ++ renderJson gap v ++ ",\n" ++
      renderObj gap (.cons k2 v2 gs)
end

/-- Product.toJSON field order, as serialized into exported files. -/
def productToJson (p : Product) : Json :=
  .obj (.cons "id" (.num (p.id : ℚ))
    (.cons "title" (.str p.title)
      (.cons "price" (.num p.price)
        (.cons "description" (.str p.description)
          (.cons "category" (.str p.category)
            (.cons "image" (.str p.image)
              (.cons "rating"
                (.obj (.cons "rate" (.num p.rating.rate)
                  (.cons "count" (.num (p.rating.count : ℚ)) .nil)))
                .nil)))))))

/-- exchangeRates[currency] || 1: JS truthiness makes both an absent and
a zero rate fall back to 1. -/
def jsTruthyRate : Option ℚ → ℚ
  | none => 1
  | some r => if r == 0 then 1 else r

/-- exportQuoteData from src/js/storage.js: serializes
\x7bcurrency, timestamp, items, exchangeRate\x7d with 2-space indentation.
The persisted quote list and the current clock reading are passed as
explicit state. -/
def exportQuoteData (quoteList : List Product) (now : String)
    (currency : String) (exchangeRates : RateTable) : String :=
  renderJson 0 (.obj (.cons "currency" (.str currency)
    (.cons "timestamp" (.str now)
      (.cons "items" (.arr (JsonArr.ofList (quoteList.map productToJson)))
        (.cons "exchangeRate" (.num (jsTruthyRate (lookupRate exchangeRates currency)))
          .nil)))))

/-- The export object as the spec words it: exchangeRate is rates[c], or
1 only if c is absent from the table.  Used as the refinement target for
exportQuoteData. -/
def exportQuoteDataSpec (quoteList : List Product) (now : String)
    (currency : String) (exchangeRates : RateTable) : String :=
  renderJson 0 (.obj (.cons "currency" (.str currency)
    (.cons "timestamp" (.str now)
      (.cons "items" (.arr (JsonArr.ofList (quoteList.map productToJson)))
        (.cons "exchangeRate" (.num ((lookupRate exchangeRates currency).getD 1))
          .nil)))))

/-! ## Theorems -/

/-! ## Theorems -/

theorem filterByCategory_eq_filter (l : List Product) (c : String) :
    filterByCategory l c = l.filter fun p => p.isInCategory c := by
  by_cases h : (c == "" || c == "all") = true
  · simp [filterByCategory, Product.isInCategory, h]
  · simp [filterByCategory, Product.isInCategory, h]

theorem filterBySearch_eq_filter (l : List Product) (q : String) :
    filterBySearch l q = l.filter fun p => p.matchesSearch q := by
  by_cases h : (q == "" || q.trim == "") = true
  · simp [filterBySearch, Product.matchesSearch, h]
  · simp [filterBySearch, Product.matchesSearch, h]

theorem applyFilters_chain (l : List Product) (f : FilterCriteria) :
    applyFilters l f = filterBySearch (filterByCategory l f.category) f.search := by
  unfold applyFilters
  by_cases hc : (f.category == "") = true
  · by_cases hs : (f.search == "") = true
    · simp [hc, hs, filterBySearch, filterByCategory]
    · simp [hc, hs, filterByCategory]
  · by_cases hs : (f.search == "") = true
    · simp [hc, hs, filterBySearch]
    · simp [hc, hs]

/-- C1: applyFilters returns exactly the products passing both the
category predicate (pass-through on empty or "all", else exact equality)
and the search predicate (pass-through on empty or blank query, else
case-insensitive substring match of the trimmed query against title,
description or category), preserving original relative order. -/
theorem applyFilters_filters_by_both_predicates (l : List Product) (f : FilterCriteria) :
    applyFilters l f =
      l.filter fun p => p.isInCategory f.category && p.matchesSearch f.search := by
  rw [applyFilters_chain, filterBySearch_eq_filter, filterByCategory_eq_filter,
    List.filter_filter]
  exact List.filter_congr fun x _ => Bool.and_comm _ _

/-- C2: converting any finite amount to the base currency USD is the
identity: convertPrice(x, "USD", R) = x for every rate table R. -/
theorem convertPrice_usd_identity (x : ℚ) (R : RateTable) :
    convertPrice (.num x) "USD" R = .num x := by
  by_cases hx : x = 0
  · simp [convertPrice, jsFalsy, jsTypeofNumber, hx]
  · simp [convertPrice, jsFalsy, jsTypeofNumber, hx]

/-- C3: when the target currency is absent from the rate table the
conversion falls back to the unconverted base amount. -/
theorem convertPrice_missing_rate_fallback (x : ℚ) (c : String) (R : RateTable)
    (h : lookupRate R c = none) :
    convertPrice (.num x) c R = .num x := by
  by_cases hx : x = 0
  · simp [convertPrice, jsFalsy, jsTypeofNumber, hx]
  · by_cases hc : (c == "USD") = true
    · simp [convertPrice, jsFalsy, jsTypeofNumber, hx, hc]
    · simp [convertPrice, jsFalsy, jsTypeofNumber, hx, hc, h]

theorem convertPrice_missing_rate_fallback_witness :
    lookupRate [] "EUR" = none ∧ convertPrice (.num 5) "EUR" [] = .num 5 :=
  ⟨rfl, convertPrice_missing_rate_fallback 5 "EUR" [] rfl⟩

/-- C9: a currency present in the table but mapped to the rate 0 is
treated like an absent rate: the fallback returns the base amount rather
than multiplying by 0. -/
theorem convertPrice_zero_rate_fallback (x : ℚ) (c : String) (R : RateTable)
    (h : lookupRate R c = some 0) :
    convertPrice (.num x) c R = .num x := by
  by_cases hx : x = 0
  · simp [convertPrice, jsFalsy, jsTypeofNumber, hx]
  · by_cases hc : (c == "USD") = true
    · simp [convertPrice, jsFalsy, jsTypeofNumber, hx, hc]
    · simp [convertPrice, jsFalsy, jsTypeofNumber, hx, hc, h]

theorem convertPrice_zero_rate_fallback_witness :
    lookupRate [("EUR", 0)] "EUR" = some 0 ∧
      convertPrice (.num 7) "EUR" [("EUR", 0)] = .num 7 :=
  ⟨rfl, convertPrice_zero_rate_fallback 7 "EUR" [("EUR", 0)] rfl⟩

/-- C4 counterexample: the claim says every negative or infinite amount
is treated as 0, but a negative amount passes the falsy guard and is
returned unchanged (and likewise Infinity). -/
theorem convertPrice_negative_not_zeroed :
    convertPrice (.num (-1)) "USD" [] = .num (-1) ∧
      convertPrice .inf "USD" [] = .inf ∧
      JsNum.num (-1) ≠ JsNum.num 0 ∧ JsNum.inf ≠ JsNum.num 0 := by
  refine ⟨rfl, rfl, ?_, ?_⟩ <;> decide

theorem mulRate_ne_num_zero (x : JsNum) (r : ℚ) (hq : jsFalsy x = false)
    (hn : jsTypeofNumber x = true) (hr : r ≠ 0) : mulRate x r ≠ .num 0 := by
  cases x with
  | undef => exact absurd hn (by simp [jsTypeofNumber])
  | nan => exact absurd hq (by simp [jsFalsy])
  | inf =>
    by_cases h1 : 0 < r <;> by_cases h2 : r < 0 <;> simp [mulRate, h1, h2]
  | negInf =>
    by_cases h1 : 0 < r <;> by_cases h2 : r < 0 <;> simp [mulRate, h1, h2]
  | num q =>
    have hq0 : q ≠ 0 := by simpa [jsFalsy] using hq
    simp only [mulRate, ne_eq, JsNum.num.injEq, mul_eq_zero]
    rintro (h | h)
    · exact hq0 h
    · exact hr h

/-- C4 amended: convertPrice returns 0 exactly for the falsy or
non-number amounts (missing input, a non-number, NaN, and the amount 0);
negative and infinite amounts are not treated as 0: they pass the guard
and are returned unchanged for USD or converted like any other number. -/
theorem convertPrice_falsy_amounts_zeroed (c : String) (R : RateTable) :
    (∀ x : JsNum, convertPrice x c R = .num 0 ↔
      (jsFalsy x || !jsTypeofNumber x) = true) ∧
    (∀ q : ℚ, q < 0 → convertPrice (.num q) "USD" R = .num q) ∧
    (∀ q : ℚ, q < 0 → ∀ r : ℚ, c ≠ "USD" → lookupRate R c = some r →
      r ≠ 0 → convertPrice (.num q) c R = .num (q * r)) ∧
    (convertPrice .inf "USD" R = .inf ∧ convertPrice .negInf "USD" R = .negInf) ∧
    (∀ r : ℚ, c ≠ "USD" → lookupRate R c = some r → 0 < r →
      convertPrice .inf c R = .inf) := by
  refine ⟨?_, ?_, ?_, ⟨rfl, rfl⟩, ?_⟩
  · intro x
    constructor
    · intro h
      by_cases hg : (jsFalsy x || !jsTypeofNumber x) = true
      · exact hg
      · exfalso
        have hq : jsFalsy x = false := by
          cases h0 : jsFalsy x with
          | false => rfl
          | true => exact absurd (by simp [h0]) hg
        have hn : jsTypeofNumber x = true := by
          cases h0 : jsTypeofNumber x with
          | false => exact absurd (by simp [h0]) hg
          | true => rfl
        have hx0 : x ≠ .num 0 := by
          intro hx
          rw [hx] at hq
          simp [jsFalsy] at hq
        unfold convertPrice at h
        rw [if_neg hg] at h
        by_cases hc : (c == "USD") = true
        · rw [if_pos hc] at h
          exact hx0 h
        · rw [if_neg hc] at h
          cases hl : lookupRate R c with
          | none => rw [hl] at h; exact hx0 h
          | some r =>
            rw [hl] at h
            have h2 : (if (r == 0) = true then x else mulRate x r) = JsNum.num 0 := h
            by_cases hr : (r == 0) = true
            · rw [if_pos hr] at h2; exact hx0 h2
            · rw [if_neg hr] at h2
              exact mulRate_ne_num_zero x r hq hn (by simpa using hr) h2
    · intro h
      unfold convertPrice
      rw [if_pos h]
  · intro q hq
    have hq0 : ¬(q = 0) := ne_of_lt hq
    simp [convertPrice, jsFalsy, jsTypeofNumber, hq0]
  · intro q hq r hc hl hr
    have hq0 : ¬(q = 0) := ne_of_lt hq
    have hc' : ¬((c == "USD") = true) := by simpa using hc
    simp [convertPrice, jsFalsy, jsTypeofNumber, hq0, hc', hl, hr, mulRate]
  · intro r hc hl hr
    have hc' : ¬((c == "USD") = true) := by simpa using hc
    have hr0 : ¬(r = 0) := ne_of_gt hr
    simp [convertPrice, jsFalsy, jsTypeofNumber, hc', hl, hr0, mulRate, hr]

theorem convertPrice_falsy_amounts_zeroed_witness :
    convertPrice (JsNum.undef) "EUR" [("EUR", 3)] = .num 0 ∧
      ((-2 : ℚ) < 0) ∧
      convertPrice (.num (-2)) "USD" [("EUR", 3)] = .num (-2) ∧
      convertPrice (.num (-2)) "EUR" [("EUR", 3)] = .num ((-2) * 3) ∧
      ((0 : ℚ) < 3) ∧
      convertPrice .inf "EUR" [("EUR", 3)] = .inf :=
  ⟨((convertPrice_falsy_amounts_zeroed "EUR" [("EUR", 3)]).1 .undef).mpr (by decide),
    by decide,
    (convertPrice_falsy_amounts_zeroed "EUR" [("EUR", 3)]).2.1 (-2) (by decide),
    (convertPrice_falsy_amounts_zeroed "EUR" [("EUR", 3)]).2.2.1 (-2) (by decide) 3
      (by decide) rfl (by decide),
    by decide,
    (convertPrice_falsy_amounts_zeroed "EUR" [("EUR", 3)]).2.2.2.2 3
      (by decide) rfl (by decide)⟩

/-- C5: every finite amount formats with the correct leading symbol for
each known currency; 1234.5 renders in JPY with no decimal separator
(rounded to 1,235) and in USD with exactly two decimal digits, both with
en-US thousands separators. -/
theorem formatPrice_symbol_and_decimals :
    (∀ q : ℚ,
      (∃ t, formatPrice (.num q) "USD" = "$" ++ t) ∧
      (∃ t, formatPrice (.num q) "EUR" = "€" ++ t) ∧
      (∃ t, formatPrice (.num q) "GBP" = "£" ++ t) ∧
      (∃ t, formatPrice (.num q) "JPY" = "¥" ++ t) ∧
      (∃ t, formatPrice (.num q) "MXN" = "$" ++ t)) ∧
    formatPrice (.num (2469 / 2)) "JPY" = "¥1,235" ∧
    (formatPrice (.num (2469 / 2)) "JPY").toList.contains '.' = false ∧
    formatPrice (.num (2469 / 2)) "USD" = "$1,234.50" := by
  have hJ : formatPrice (.num (2469 / 2)) "JPY" = "¥1,235" := by
    have h : mathRound (2469 / 2 : ℚ) = 1235 := by
      unfold mathRound; norm_num
    simp only [formatPrice, h]
    decide
  have hU : formatPrice (.num (2469 / 2)) "USD" = "$1,234.50" := by
    have h : halfExpand ((2469 / 2 : ℚ) * 100) = 123450 := by
      unfold halfExpand
      rw [if_pos (by norm_num)]
      norm_num
    have hneg : ¬((2469 / 2 : ℚ) < 0) := by norm_num
    simp only [formatPrice, formatFixed2, h, if_neg hneg]
    decide
  refine ⟨fun q => ?_, hJ, by rw [hJ]; decide, hU⟩
  exact ⟨⟨formatFixed2 q, rfl⟩, ⟨formatFixed2 q, rfl⟩, ⟨formatFixed2 q, rfl⟩,
    ⟨jsToLocaleInt (mathRound q), rfl⟩, ⟨formatFixed2 q, rfl⟩⟩

/-- C10: a non-number or NaN amount always formats as the currency
symbol followed by "0.00", for every currency including JPY (the NaN
branch never applies the JPY zero-decimal rendering). -/
theorem formatPrice_nan_uniform (c : String) :
    formatPrice .nan c = getCurrencySymbol c ++ "0.00" ∧
      formatPrice .undef c = getCurrencySymbol c ++ "0.00" ∧
      formatPrice .nan "JPY" = "¥0.00" :=
  ⟨rfl, rfl, rfl⟩

theorem addToQuote_preserves_idsNodup (s : List Product) (p : Product)
    (h : idsNodup s) : idsNodup (addToQuote s p) := by
  unfold addToQuote
  by_cases hmem : s.any (fun item => item.id == p.id) = true
  · simpa [hmem] using h
  · rw [if_neg hmem]
    unfold idsNodup at h ⊢
    rw [List.map_append, List.nodup_append]
    refine ⟨h, List.nodup_singleton _, ?_⟩
    intro a ha hb
    simp only [List.map_cons, List.map_nil, List.mem_singleton] at hb
    subst hb
    simp only [List.mem_map] at ha
    obtain ⟨item, hitem, hid⟩ := ha
    rw [List.any_eq_true] at hmem
    push_neg at hmem
    exact absurd (by simpa using hid) (by simpa using hmem item hitem)

theorem countP_addToQuote_twice (s : List Product) (p : Product)
    (h : idsNodup s) :
    List.countP (fun item => item.id == p.id) (addToQuote (addToQuote s p) p) = 1 := by
  by_cases hmem : s.any (fun item => item.id == p.id) = true
  · have h1 : addToQuote s p = s := by simp [addToQuote, hmem]
    rw [h1, h1]
    have hmem' : p.id ∈ s.map fun item => item.id := by
      rw [List.any_eq_true] at hmem
      obtain ⟨item, hitem, hid⟩ := hmem
      exact List.mem_map.mpr ⟨item, hitem, by simpa using hid⟩
    have hcount : List.count p.id (s.map fun item => item.id) = 1 :=
      List.count_eq_one_of_mem h hmem'
    have hlink := (List.countP_map (fun x => x == p.id) (fun item => item.id) s).symm
    exact hlink.trans hcount
  · have h0 : List.countP (fun item => item.id == p.id) s = 0 := by
      rw [List.countP_eq_zero]
      intro a ha
      rw [List.any_eq_true] at hmem
      push_neg at hmem
      exact hmem a ha
    have h1 : addToQuote s p = s ++ [p] := by simp [addToQuote, hmem]
    have h2 : addToQuote (s ++ [p]) p = s ++ [p] := by
      have : (s ++ [p]).any (fun item => item.id == p.id) = true := by
        rw [List.any_eq_true]
        exact ⟨p, by simp, by simp⟩
      simp [addToQuote, this]
    rw [h1, h2, List.countP_append, h0]
    simp

/-- C7: the ledger mutations preserve uniqueness of ids; adding the same
product twice leaves exactly one entry with its id (the second add is a
no-op); removing from an empty ledger is a no-op returning the empty
sequence; clearing yields the (trivially unique) empty ledger. -/
theorem quote_ledger_invariants :
    (∀ s p, idsNodup s → idsNodup (addToQuote s p)) ∧
    (∀ s i, idsNodup s → idsNodup (removeFromQuote s i)) ∧
    idsNodup clearQuote ∧
    (∀ s p, idsNodup s →
      addToQuote (addToQuote s p) p = addToQuote s p ∧
      List.countP (fun item => item.id == p.id) (addToQuote (addToQuote s p) p) = 1) ∧
    (∀ i, removeFromQuote [] i = []) := by
  refine ⟨addToQuote_preserves_idsNodup, ?_, ?_, ?_, fun i => rfl⟩
  · intro s i h
    exact List.Nodup.sublist (List.Sublist.map _ (List.filter_sublist s)) h
  · exact List.nodup_nil
  · intro s p h
    refine ⟨?_, countP_addToQuote_twice s p h⟩
    by_cases hmem : s.any (fun item => item.id == p.id) = true
    · simp [addToQuote, hmem]
    · have h1 : addToQuote s p = s ++ [p] := by simp [addToQuote, hmem]
      rw [h1]
      have : (s ++ [p]).any (fun item => item.id == p.id) = true := by
        rw [List.any_eq_true]
        exact ⟨p, by simp, by simp⟩
      simp [addToQuote, this]

theorem quote_ledger_invariants_witness :
    idsNodup [] ∧
      addToQuote (addToQuote [] sampleProduct1) sampleProduct1 =
        addToQuote [] sampleProduct1 ∧
      List.countP (fun item => item.id == sampleProduct1.id)
        (addToQuote (addToQuote [] sampleProduct1) sampleProduct1) = 1 ∧
      idsNodup (addToQuote [sampleProduct2] sampleProduct1) ∧
      removeFromQuote [] 5 = [] :=
  ⟨List.nodup_nil,
    (quote_ledger_invariants.2.2.2.1 [] sampleProduct1 List.nodup_nil).1,
    (quote_ledger_invariants.2.2.2.1 [] sampleProduct1 List.nodup_nil).2,
    quote_ledger_invariants.1 [sampleProduct2] sampleProduct1 (by decide),
    quote_ledger_invariants.2.2.2.2 5⟩

/-- C8: with pairwise-distinct prices, sorting by price-asc yields the
exact reverse of sorting by price-desc. -/
theorem sortProducts_price_asc_reverse_desc (l : List Product)
    (h : l.Pairwise fun a b => a.price ≠ b.price) :
    sortProducts l "price-asc" = (sortProducts l "price-desc").reverse := by
  have hA : sortProducts l "price-asc" =
      l.mergeSort fun a b => decide (a.price ≤ b.price) := rfl
  have hD : sortProducts l "price-desc" =
      l.mergeSort fun a b => decide (b.price ≤ a.price) := rfl
  rw [hA, hD]
  set sa := l.mergeSort fun a b => decide (a.price ≤ b.price) with hsa
  set sd := l.mergeSort fun a b => decide (b.price ≤ a.price) with hsd
  have permA : sa.Perm l := List.mergeSort_perm l _
  have permD : sd.Perm l := List.mergeSort_perm l _
  have hsymm : ∀ {x y : Product}, x.price ≠ y.price → y.price ≠ x.price :=
    fun hxy => fun e => hxy e.symm
  have hneA : sa.Pairwise fun a b => a.price ≠ b.price :=
    (List.Perm.pairwise_iff hsymm permA).mpr h
  have hneD : sd.Pairwise fun a b => a.price ≠ b.price :=
    (List.Perm.pairwise_iff hsymm permD).mpr h
  have sortedA : sa.Pairwise fun a b => decide (a.price ≤ b.price) = true :=
    List.sorted_mergeSort
      (fun a b c hab hbc => by
        simp only [decide_eq_true_eq] at hab hbc ⊢
        exact le_trans hab hbc)
      (fun a b => by simpa using le_total a.price b.price) l
  have sortedD : sd.Pairwise fun a b => decide (b.price ≤ a.price) = true :=
    List.sorted_mergeSort
      (fun a b c hab hbc => by
        simp only [decide_eq_true_eq] at hab hbc ⊢
        exact le_trans hbc hab)
      (fun a b => by simpa using le_total b.price a.price) l
  have strictA : sa.Pairwise fun a b => a.price < b.price :=
    (sortedA.and hneA).imp fun hx =>
      lt_of_le_of_ne (by simpa using hx.1) hx.2
  have strictRev : sd.reverse.Pairwise fun a b => a.price < b.price := by
    rw [List.pairwise_reverse]
    exact (sortedD.and hneD).imp fun hx =>
      lt_of_le_of_ne (by simpa using hx.1) (hsymm hx.2)
  have permRev : sa.Perm sd.reverse :=
    permA.trans (permD.symm.trans sd.reverse_perm.symm)
  haveI : IsAntisymm Product fun a b => a.price < b.price :=
    ⟨fun _ _ h1 h2 => absurd h1 (lt_asymm h2)⟩
  exact List.eq_of_perm_of_sorted permRev strictA strictRev

theorem sortProducts_price_asc_reverse_desc_witness :
    ([sampleProduct1, sampleProduct2].Pairwise fun a b => a.price ≠ b.price) ∧
      sortProducts [sampleProduct1, sampleProduct2] "price-asc" =
        (sortProducts [sampleProduct1, sampleProduct2] "price-desc").reverse :=
  ⟨by decide, sortProducts_price_asc_reverse_desc _ (by decide)⟩

/-- C6 counterexample: with a rate table mapping the currency to 0, the
exported string carries exchangeRate 1 (JS || fallback), not the
present-in-table rate 0 the claim prescribes. -/
theorem exportQuoteData_zero_rate_counterexample :
    exportQuoteData [] "2024-01-01T00:00:00.000Z" "EUR" [("EUR", 0)] ≠
      exportQuoteDataSpec [] "2024-01-01T00:00:00.000Z" "EUR" [("EUR", 0)] := by
  decide

/-- C6 amended: when the looked-up rate is not 0, exportQuoteData
returns exactly the 2-space-indented JSON serialization of the object
with the four fields currency, timestamp (the clock reading), items (the
persisted quote list) and exchangeRate (the rate, or 1 when absent); and
a zero rate present in the table falls back to exchangeRate 1 exactly
like an absent rate, i.e. the output equals the spec object built over
a table in which the currency is absent. -/
theorem exportQuoteData_matches_spec_shape (store : List Product)
    (now c : String) (R : RateTable) :
    (lookupRate R c ≠ some 0 →
      exportQuoteData store now c R = exportQuoteDataSpec store now c R) ∧
    (lookupRate R c = some 0 →
      exportQuoteData store now c R = exportQuoteDataSpec store now c []) := by
  constructor
  · intro h
    have hrate : jsTruthyRate (lookupRate R c) = (lookupRate R c).getD 1 := by
      cases hl : lookupRate R c with
      | none => rfl
      | some r =>
        have hr : ¬(r == 0) = true := by
          intro hr0
          exact h (by rw [hl, show r = 0 from by simpa using hr0])
        simp [jsTruthyRate, hr]
    unfold exportQuoteData exportQuoteDataSpec
    rw [hrate]
  · intro h
    have hrate : jsTruthyRate (lookupRate R c) = (lookupRate ([] : RateTable) c).getD 1 := by
      rw [h]
      simp [jsTruthyRate, lookupRate]
    unfold exportQuoteData exportQuoteDataSpec
    rw [hrate]

theorem exportQuoteData_matches_spec_shape_witness :
    lookupRate [("EUR", Rat.mk' 23 25)] "EUR" ≠ some 0 ∧
      exportQuoteData [] "2024-01-01T00:00:00.000Z" "EUR" [("EUR", Rat.mk' 23 25)] =
        exportQuoteDataSpec [] "2024-01-01T00:00:00.000Z" "EUR" [("EUR", Rat.mk' 23 25)] ∧
      lookupRate [("EUR", 0)] "EUR" = some 0 ∧
      exportQuoteData [] "2024-01-01T00:00:00.000Z" "EUR" [("EUR", 0)] =
        exportQuoteDataSpec [] "2024-01-01T00:00:00.000Z" "EUR" [] :=
  ⟨by decide,
    (exportQuoteData_matches_spec_shape [] "2024-01-01T00:00:00.000Z" "EUR"
      [("EUR", Rat.mk' 23 25)]).1 (by decide),
    by decide,
    (exportQuoteData_matches_spec_shape [] "2024-01-01T00:00:00.000Z" "EUR"
      [("EUR", 0)]).2 (by decide)⟩

end InventoryManager
